import Mathlib

/-!
Verification of the tmux countdown script `tminus.py`.

The script reads the current instant, resolves the next occurrence of
February 27 (this year if not yet strictly passed, else next year), and
prints one line: `T-ZERO` when `now.date()` equals the resolved target's
date, otherwise `T-MINUS {d}D {h}H {m}M {s}S` computed from the
whole-second delta (with a `T-ZERO` fallback for a negative delta).

We embed instants as proleptic-Gregorian calendar datetimes with
second precision, mapped to a linear second count `toSec` exactly as
CPython's `datetime` maps datetimes to ordinals (`_ymd2ord`): Python's
datetime comparison and subtraction coincide with comparison and
subtraction of `toSec` on valid datetimes.
-/

namespace TMinus

/-- Gregorian leap-year test, as CPython's `datetime._is_leap`. -/
def isLeap (y : Nat) : Bool :=
  (y % 4 == 0 && y % 100 != 0) || y % 400 == 0

/-- Number of days in month `m` (1–12) of a year with leap flag `leap`,
as CPython's `_days_in_month`. -/
def daysInMonth (leap : Bool) (m : Nat) : Nat :=
  match m with
  | 2 => if leap then 29 else 28
  | 4 | 6 | 9 | 11 => 30
  | _ => 31

/-- Number of days in the year strictly before the first of month `m`,
as CPython's `_days_before_month` (table `_DAYS_BEFORE_MONTH` plus the
leap correction for months after February). -/
def daysBeforeMonth (leap : Bool) (m : Nat) : Nat :=
  (match m with
   | 1 => 0 | 2 => 31 | 3 => 59 | 4 => 90 | 5 => 120 | 6 => 151
   | 7 => 181 | 8 => 212 | 9 => 243 | 10 => 273 | 11 => 304 | _ => 334)
  + (if 2 < m ∧ leap = true then 1 else 0)

/-- Days in a year with the given leap flag. -/
def daysInYear (leap : Bool) : Nat := if leap then 366 else 365

/-- Number of days strictly before January 1 of year `y`, as CPython's
`_days_before_year`. -/
def daysBeforeYear (y : Nat) : Nat :=
  365 * (y - 1) + (y - 1) / 4 - (y - 1) / 100 + (y - 1) / 400

/-- Proleptic-Gregorian ordinal of a date, as CPython's `_ymd2ord`. -/
def toOrdinal (y m d : Nat) : Nat :=
  daysBeforeYear y + daysBeforeMonth (isLeap y) m + d

/-- A calendar datetime with second precision (the script never observes
sub-second precision of the target, and the claims quantify over
whole-second instants). -/
structure DateTime where
  year : Nat
  month : Nat
  day : Nat
  hour : Nat
  minute : Nat
  second : Nat
deriving DecidableEq, Repr

/-- `datetime(y, m, d)` — midnight of the given date. -/
def mkDate (y m d : Nat) : DateTime := ⟨y, m, d, 0, 0, 0⟩

/-- Linear time scale: seconds from the calendar origin. Differences and
comparisons of Python datetimes equal differences and comparisons of
`toSec` on valid datetimes. -/
def toSec (t : DateTime) : Nat :=
  toOrdinal t.year t.month t.day * 86400 + t.hour * 3600 + t.minute * 60 + t.second

/-- `now.date()`: the calendar-date triple of a datetime. -/
def dateOf (t : DateTime) : Nat × Nat × Nat := (t.year, t.month, t.day)

/-- The datetimes Python's `datetime` constructor accepts (at second
precision). -/
def Valid (t : DateTime) : Prop :=
  1 ≤ t.year ∧ 1 ≤ t.month ∧ t.month ≤ 12 ∧ 1 ≤ t.day ∧
  t.day ≤ daysInMonth (isLeap t.year) t.month ∧
  t.hour < 24 ∧ t.minute < 60 ∧ t.second < 60

instance (t : DateTime) : Decidable (Valid t) := by
  unfold Valid; infer_instance

/-- Lines 6–11 of `tminus.py`: resolve the target.  `birthday_year = now.year`,
`target_date = datetime(birthday_year, 2, 27)`, and if `now > target_date`
then `target_date = datetime(birthday_year + 1, 2, 27)`. -/
def target_date (now : DateTime) : DateTime :=
  let birthday_year := now.year
  let t := mkDate birthday_year 2 27
  if toSec t < toSec now then mkDate (birthday_year + 1) 2 27 else t

/-- Lines 23–26 of `tminus.py`: split a non-negative total-seconds count into
`(days, hours, minutes, seconds)` by `// 86400`, `% 86400 // 3600`,
`% 3600 // 60`, `% 60`. -/
def decompose (total_seconds : Nat) : Nat × Nat × Nat × Nat :=
  (total_seconds / 86400, total_seconds % 86400 / 3600,
   total_seconds % 3600 / 60, total_seconds % 60)

/-- Lines 17–28 of `tminus.py`: given the whole-second delta
`total_seconds = int((target_date - now).total_seconds())`, print `T-ZERO`
when it is negative and the formatted `T-MINUS` line otherwise. -/
def formatDelta (total_seconds : Int) : String :=
  if total_seconds < 0 then "T-ZERO"
  else
    "T-MINUS " ++ Nat.repr (decompose total_seconds.toNat).1 ++ "D " ++
      Nat.repr (decompose total_seconds.toNat).2.1 ++ "H " ++
      Nat.repr (decompose total_seconds.toNat).2.2.1 ++ "M " ++
      Nat.repr (decompose total_seconds.toNat).2.2.2 ++ "S"

/-- The whole-second delta `int((target_date - now).total_seconds())`
computed by lines 17–18 (exact here, since both instants are
whole-second). -/
def totalSecondsOf (now : DateTime) : Int :=
  (toSec (target_date now) : Int) - (toSec now : Int)

/-- The whole script: the single line it prints for clock reading `now`.
Line 14 checks `now.date() == target_date.date()`; otherwise the delta is
formatted by lines 17–28. -/
def tminus (now : DateTime) : String :=
  if dateOf now = dateOf (target_date now) then "T-ZERO"
  else formatDelta (totalSecondsOf now)

/-! ## Helper lemmas: calendar arithmetic -/

lemma isLeap_iff (y : Nat) :
    isLeap y = true ↔ ((y % 4 = 0 ∧ ¬ y % 100 = 0) ∨ y % 400 = 0) := by
  simp [isLeap]

set_option maxHeartbeats 800000 in
lemma daysBeforeYear_succ (y : Nat) (hy : 1 ≤ y) :
    daysBeforeYear (y + 1) = daysBeforeYear y + daysInYear (isLeap y) := by
  cases h : isLeap y with
  | false =>
    simp only [isLeap, Bool.or_eq_false_iff, Bool.and_eq_false_iff,
      beq_eq_false_iff_ne, ne_eq, bne_eq_false_iff_eq] at h
    simp only [daysBeforeYear, daysInYear, if_neg Bool.false_ne_true]
    omega
  | true =>
    have h' : (y % 4 = 0 ∧ ¬ y % 100 = 0) ∨ y % 400 = 0 := by
      simpa [isLeap, Bool.or_eq_true, Bool.and_eq_true, beq_iff_eq, bne_iff_ne] using h
    simp [daysBeforeYear, daysInYear, h]
    omega

lemma dayOfYear_le (L : Bool) (m d : Nat) (h2 : m ≤ 12)
    (h4 : d ≤ daysInMonth L m) : daysBeforeMonth L m + d ≤ daysInYear L := by
  interval_cases m <;> cases L <;>
    simp [daysBeforeMonth, daysInMonth, daysInYear] at h4 ⊢ <;> omega

lemma dayOfYear_eq_58 (L : Bool) (m d : Nat) (h1 : 1 ≤ m) (h2 : m ≤ 12)
    (h3 : 1 ≤ d) (h4 : d ≤ daysInMonth L m)
    (h : daysBeforeMonth L m + d = 58) : m = 2 ∧ d = 27 := by
  interval_cases m <;> cases L <;>
    simp [daysBeforeMonth, daysInMonth] at h4 h ⊢ <;> omega

lemma daysBeforeMonth_two (L : Bool) : daysBeforeMonth L 2 = 31 := by
  cases L <;> rfl

/-- Any valid instant of year `y` is strictly before midnight of
February 27 of year `y + 1`. -/
lemma toSec_lt_next (t : DateTime) (hv : Valid t) :
    toSec t < toSec (mkDate (t.year + 1) 2 27) := by
  obtain ⟨hy, hm1, hm2, hd1, hd2, hh, hmi, hs⟩ := hv
  have hb := daysBeforeYear_succ t.year hy
  have hday := dayOfYear_le (isLeap t.year) t.month t.day hm2 hd2
  have h2 := daysBeforeMonth_two (isLeap (t.year + 1))
  simp only [toSec, toOrdinal, mkDate] at h2 ⊢
  rw [h2, hb]
  omega

/-- The resolved target is never strictly before `now`. -/
lemma toSec_le_target (now : DateTime) (hv : Valid now) :
    toSec now ≤ toSec (target_date now) := by
  rw [target_date]
  split
  · exact le_of_lt (toSec_lt_next now hv)
  · next h => exact le_of_not_lt h

/-- When the calendar dates differ, the resolved target is strictly after
`now`. -/
lemma toSec_lt_target (now : DateTime) (hv : Valid now)
    (hne : dateOf now ≠ dateOf (target_date now)) :
    toSec now < toSec (target_date now) := by
  have hv' := hv
  obtain ⟨hy, hm1, hm2, hd1, hd2, hh, hmi, hs⟩ := hv'
  by_cases hlt : toSec (mkDate now.year 2 27) < toSec now
  · simp only [target_date, if_pos hlt]
    exact toSec_lt_next now hv
  · simp only [target_date, if_neg hlt] at hne ⊢
    have hle := le_of_not_lt hlt
    rcases lt_or_eq_of_le hle with hlt' | heq
    · exact hlt'
    · exfalso
      have h2 := daysBeforeMonth_two (isLeap now.year)
      simp only [toSec, toOrdinal, mkDate] at heq
      rw [h2] at heq
      have h58 : daysBeforeMonth (isLeap now.year) now.month + now.day = 58 := by
        omega
      obtain ⟨hmo, hda⟩ :=
        dayOfYear_eq_58 (isLeap now.year) now.month now.day hm1 hm2 hd1 hd2 h58
      exact hne (by simp [dateOf, mkDate, hmo, hda])

lemma delta_nonneg (now : DateTime) (hv : Valid now) :
    0 ≤ totalSecondsOf now := by
  have := toSec_le_target now hv
  simp only [totalSecondsOf]
  omega

lemma decompose_spec (S : Nat) :
    (decompose S).1 * 86400 + (decompose S).2.1 * 3600 +
      (decompose S).2.2.1 * 60 + (decompose S).2.2.2 = S ∧
    (decompose S).2.1 < 24 ∧ (decompose S).2.2.1 < 60 ∧
    (decompose S).2.2.2 < 60 := by
  simp only [decompose]
  omega

/-! ## Helper lemmas: decimal rendering -/

lemma toDigitsCore_length_ge (b : Nat) (fuel : Nat) :
    ∀ (n : Nat) (ds : List Char),
      ds.length + 1 ≤ (Nat.toDigitsCore b (fuel + 1) n ds).length := by
  induction fuel with
  | zero =>
    intro n ds
    simp only [Nat.toDigitsCore]
    split <;> simp [Nat.toDigitsCore]
  | succ f ih =>
    intro n ds
    simp only [Nat.toDigitsCore]
    split
    · simp
    · exact le_trans (by simp) (ih (n / b) (Nat.digitChar (n % b) :: ds))

lemma repr_length_pos (n : Nat) : 1 ≤ (Nat.repr n).length := by
  show 1 ≤ (Nat.toDigitsCore 10 (n + 1) n []).length
  exact toDigitsCore_length_ge 10 n n []

lemma repr_length_two (n : Nat) (h : 10 ≤ n) : 2 ≤ (Nat.repr n).length := by
  have hne : ¬ n / 10 = 0 := by omega
  have hstep : Nat.toDigitsCore 10 (n + 1) n [] =
      Nat.toDigitsCore 10 n (n / 10) [Nat.digitChar (n % 10)] := by
    simp only [Nat.toDigitsCore]
    rw [if_neg hne]
  obtain ⟨f, hf⟩ : ∃ f, n = f + 1 := ⟨n - 1, by omega⟩
  have h2 := toDigitsCore_length_ge 10 f (n / 10) [Nat.digitChar (n % 10)]
  rw [← hf] at h2
  show 2 ≤ (Nat.toDigitsCore 10 (n + 1) n []).length
  rw [hstep]
  simpa using h2

lemma repr_single (n : Nat) (h : n < 10) :
    Nat.repr n = String.singleton (Nat.digitChar n) := by
  interval_cases n <;> decide

lemma digitChar_eq_zero (n : Nat) (h : n < 10) (hc : Nat.digitChar n = '0') :
    n = 0 := by
  interval_cases n <;> first | rfl | exact absurd hc (by decide)

lemma str_data_append (a b : String) : (a ++ b).data = a.data ++ b.data := rfl

/-- A formatted T-MINUS line is never the string `T-ZERO` (it is longer). -/
lemma format_ne_tzero (a b c d : Nat) :
    "T-MINUS " ++ Nat.repr a ++ "D " ++ Nat.repr b ++ "H " ++
      Nat.repr c ++ "M " ++ Nat.repr d ++ "S" ≠ "T-ZERO" := by
  intro h
  have hlen := congrArg String.length h
  simp only [String.length_append] at hlen
  have e1 : ("T-MINUS ").length = 8 := rfl
  have e2 : ("D ").length = 2 := rfl
  have e3 : ("H ").length = 2 := rfl
  have e4 : ("M ").length = 2 := rfl
  have e5 : ("S").length = 1 := rfl
  have e6 : ("T-ZERO").length = 6 := rfl
  rw [e1, e2, e3, e4, e5, e6] at hlen
  have pa := repr_length_pos a
  omega

/-- The all-zero T-MINUS line comes only from all-zero components. -/
lemma format_zero_inj (a b c d : Nat)
    (h : "T-MINUS " ++ Nat.repr a ++ "D " ++ Nat.repr b ++ "H " ++
         Nat.repr c ++ "M " ++ Nat.repr d ++ "S" = "T-MINUS 0D 0H 0M 0S") :
    a = 0 ∧ b = 0 ∧ c = 0 ∧ d = 0 := by
  have hlen := congrArg String.length h
  simp only [String.length_append] at hlen
  have e1 : ("T-MINUS ").length = 8 := rfl
  have e2 : ("D ").length = 2 := rfl
  have e3 : ("H ").length = 2 := rfl
  have e4 : ("M ").length = 2 := rfl
  have e5 : ("S").length = 1 := rfl
  have e6 : ("T-MINUS 0D 0H 0M 0S").length = 19 := rfl
  rw [e1, e2, e3, e4, e5, e6] at hlen
  have pa := repr_length_pos a
  have pb := repr_length_pos b
  have pc := repr_length_pos c
  have pd := repr_length_pos d
  have ha10 : a < 10 := by
    by_contra hx
    have := repr_length_two a (by omega)
    omega
  have hb10 : b < 10 := by
    by_contra hx
    have := repr_length_two b (by omega)
    omega
  have hc10 : c < 10 := by
    by_contra hx
    have := repr_length_two c (by omega)
    omega
  have hd10 : d < 10 := by
    by_contra hx
    have := repr_length_two d (by omega)
    omega
  rw [repr_single a ha10, repr_single b hb10, repr_single c hc10,
    repr_single d hd10] at h
  have hdat := congrArg String.data h
  simp only [str_data_append] at hdat
  have f7 : ∀ ch : Char, (String.singleton ch).data = [ch] := fun _ => rfl
  simp only [f7] at hdat
  simp only [List.cons_append, List.nil_append, List.append_assoc,
    List.cons.injEq, List.singleton_append] at hdat
  simp only [true_and, and_true] at hdat
  obtain ⟨ga, gb, gc, gd⟩ := hdat
  exact ⟨digitChar_eq_zero a ha10 ga, digitChar_eq_zero b hb10 gb,
    digitChar_eq_zero c hc10 gc, digitChar_eq_zero d hd10 gd⟩

/-! ## Claim theorems -/

/-- C1. The claim says: for every instant on February 27 the script prints
`T-ZERO`.  The code instead retargets to next year's February 27 as soon as
`now` is strictly after midnight (line 10 runs before the date check on
line 14), so at 2025-02-27 12:00:00 it prints a T-MINUS line, contradicting
its own comment "Check if today is the birthday". -/
theorem c1_code_eval :
    tminus ⟨2025, 2, 27, 12, 0, 0⟩ = "T-MINUS 364D 12H 0M 0S" ∧
    tminus ⟨2025, 2, 27, 12, 0, 0⟩ ≠ "T-ZERO" ∧
    Valid ⟨2025, 2, 27, 12, 0, 0⟩ := by
  refine ⟨by decide, by decide, by decide⟩

/-- C2. Recurring-target year resolution: if `now` is strictly after the
candidate `(now.year, Feb 27, 00:00:00)` the resolved target is
`(now.year + 1, Feb 27, 00:00:00)`; if `now` is at or before the candidate
the resolved target is the candidate itself (year `now.year`). -/
theorem c2_year_resolution (now : DateTime) :
    (toSec (mkDate now.year 2 27) < toSec now →
      target_date now = mkDate (now.year + 1) 2 27) ∧
    (toSec now ≤ toSec (mkDate now.year 2 27) →
      target_date now = mkDate now.year 2 27) := by
  constructor
  · intro h
    simp only [target_date, if_pos h]
  · intro h
    have hn : ¬ toSec (mkDate now.year 2 27) < toSec now := not_lt.mpr h
    simp only [target_date, if_neg hn]

theorem c2_year_resolution_witness :
    target_date ⟨2025, 3, 1, 0, 0, 0⟩ = mkDate 2026 2 27 ∧
    target_date ⟨2025, 1, 15, 0, 0, 0⟩ = mkDate 2025 2 27 :=
  ⟨(c2_year_resolution ⟨2025, 3, 1, 0, 0, 0⟩).1 (by decide),
   (c2_year_resolution ⟨2025, 1, 15, 0, 0, 0⟩).2 (by decide)⟩

/-- C3. Decomposition law: for every non-negative total-seconds value `S`,
`days*86400 + hours*3600 + minutes*60 + seconds = S`, with `hours < 24`,
`minutes < 60`, `seconds < 60` (and `days ≥ 0`, trivial over `Nat`). -/
theorem c3_decomposition (S : Nat) :
    (decompose S).1 * 86400 + (decompose S).2.1 * 3600 +
      (decompose S).2.2.1 * 60 + (decompose S).2.2.2 = S ∧
    (decompose S).2.1 < 24 ∧ (decompose S).2.2.1 < 60 ∧
    (decompose S).2.2.2 < 60 ∧ 0 ≤ (decompose S).1 := by
  simp only [decompose]
  omega

/-- C4 counterexample. At `now = 2025-03-01T00:00:00` the target resolves to
2026-02-27 as claimed, but the days component is 363 — not 361 or 362 as the
claim states. -/
theorem c4_counterexample :
    target_date ⟨2025, 3, 1, 0, 0, 0⟩ = mkDate 2026 2 27 ∧
    (decompose (totalSecondsOf ⟨2025, 3, 1, 0, 0, 0⟩).toNat).1 = 363 ∧
    ¬ ((decompose (totalSecondsOf ⟨2025, 3, 1, 0, 0, 0⟩).toNat).1 = 361 ∨
       (decompose (totalSecondsOf ⟨2025, 3, 1, 0, 0, 0⟩).toNat).1 = 362) := by
  refine ⟨by decide, by decide, by decide⟩

/-- C4 amended. At `now = 2025-03-01T00:00:00` the target resolves to
2026-02-27 and the output is exactly `T-MINUS 363D 0H 0M 0S` (days
component 363). -/
theorem c4_amended :
    target_date ⟨2025, 3, 1, 0, 0, 0⟩ = mkDate 2026 2 27 ∧
    tminus ⟨2025, 3, 1, 0, 0, 0⟩ = "T-MINUS 363D 0H 0M 0S" := by
  refine ⟨by decide, by decide⟩

/-- C5. The negative-delta policy of lines 17–21: whenever the computed
whole-second delta `total_seconds` is negative, the recurring variant prints
exactly `T-ZERO`. -/
theorem c5_negative_delta (total_seconds : Int) (h : total_seconds < 0) :
    formatDelta total_seconds = "T-ZERO" := by
  simp only [formatDelta, if_pos h]

theorem c5_negative_delta_witness :
    formatDelta (-1) = "T-ZERO" :=
  c5_negative_delta (-1) (by decide)

/-- C7. At `now = 2025-02-27T00:00:00` exactly, the output is `T-ZERO`:
`now` is not strictly after the candidate midnight, so the target stays at
2025-02-27 and the calendar dates coincide. -/
theorem c7_feb27_midnight :
    tminus ⟨2025, 2, 27, 0, 0, 0⟩ = "T-ZERO" := by
  decide

/-- C6. For every valid input `now`, the resolved target is at or after
`now`, so the computed `total_seconds` is never negative and the
negative-delta `T-ZERO` branch at lines 20–21 is unreachable. -/
theorem c6_negative_branch_unreachable (now : DateTime) (hv : Valid now) :
    toSec now ≤ toSec (target_date now) ∧ ¬ totalSecondsOf now < 0 := by
  have h := toSec_le_target now hv
  refine ⟨h, ?_⟩
  simp only [totalSecondsOf]
  omega

theorem c6_negative_branch_unreachable_witness :
    toSec ⟨2025, 3, 1, 0, 0, 0⟩ ≤ toSec (target_date ⟨2025, 3, 1, 0, 0, 0⟩) ∧
    ¬ totalSecondsOf ⟨2025, 3, 1, 0, 0, 0⟩ < 0 :=
  c6_negative_branch_unreachable ⟨2025, 3, 1, 0, 0, 0⟩ (by decide)

/-- C8. For every input `now`, the single printed line is one of `T-ZERO`
or `T-MINUS {D}D {H}H {M}M {S}S` with `D` an unpadded non-negative integer
and `H < 24`, `M < 60`, `S < 60` (the listed line `T-MINUS 0D 0H 0M 0S`
is the instance with all components zero; `Nat.repr` is the unpadded
decimal rendering of the f-string). -/
theorem c8_output_shape (now : DateTime) :
    tminus now = "T-ZERO" ∨
    ∃ d h m s : Nat, h < 24 ∧ m < 60 ∧ s < 60 ∧
      tminus now = "T-MINUS " ++ Nat.repr d ++ "D " ++ Nat.repr h ++ "H " ++
        Nat.repr m ++ "M " ++ Nat.repr s ++ "S" := by
  rw [tminus]
  split
  · exact Or.inl rfl
  · rw [formatDelta]
    split
    · exact Or.inl rfl
    · right
      obtain ⟨-, hh, hm, hs⟩ := decompose_spec (totalSecondsOf now).toNat
      exact ⟨(decompose (totalSecondsOf now).toNat).1,
        (decompose (totalSecondsOf now).toNat).2.1,
        (decompose (totalSecondsOf now).toNat).2.2.1,
        (decompose (totalSecondsOf now).toNat).2.2.2, hh, hm, hs, rfl⟩

/-- C9. For every valid whole-second `now`, the script prints `T-ZERO` if
and only if `now` is exactly February 27 at 00:00:00 of `now`'s year; at
every other instant the printed line begins with `T-MINUS `. -/
theorem c9_tzero_iff_feb27_midnight (now : DateTime) (hv : Valid now) :
    (tminus now = "T-ZERO" ↔ now = mkDate now.year 2 27) ∧
    (now ≠ mkDate now.year 2 27 →
      ∃ r : String, tminus now = "T-MINUS " ++ r) := by
  have hnn : 0 ≤ totalSecondsOf now := delta_nonneg now hv
  obtain ⟨Y, MO, DA, HO, MI, SE⟩ := now
  simp only [Valid] at hv
  obtain ⟨hy, hm1, hm2, hd1, hd2, hh, hmi, hs⟩ := hv
  have hfwd : tminus ⟨Y, MO, DA, HO, MI, SE⟩ = "T-ZERO" →
      (⟨Y, MO, DA, HO, MI, SE⟩ : DateTime) = mkDate Y 2 27 := by
    intro h
    rw [tminus] at h
    by_cases hdate : dateOf ⟨Y, MO, DA, HO, MI, SE⟩ =
        dateOf (target_date ⟨Y, MO, DA, HO, MI, SE⟩)
    · by_cases hlt : toSec (mkDate Y 2 27) < toSec ⟨Y, MO, DA, HO, MI, SE⟩
      · exfalso
        simp only [target_date, if_pos hlt] at hdate
        simp only [dateOf, mkDate, Prod.mk.injEq] at hdate
        omega
      · have hle := le_of_not_lt hlt
        simp only [target_date, if_neg hlt] at hdate
        simp only [dateOf, mkDate, Prod.mk.injEq] at hdate
        obtain ⟨-, hmo, hda⟩ := hdate
        subst hmo
        subst hda
        simp only [toSec, toOrdinal, mkDate] at hle
        simp only [mkDate, DateTime.mk.injEq, eq_self_iff_true, true_and]
        omega
    · rw [if_neg hdate] at h
      rw [formatDelta, if_neg (not_lt.mpr hnn)] at h
      exact absurd h (format_ne_tzero _ _ _ _)
  have hbwd : (⟨Y, MO, DA, HO, MI, SE⟩ : DateTime) = mkDate Y 2 27 →
      tminus ⟨Y, MO, DA, HO, MI, SE⟩ = "T-ZERO" := by
    intro h
    simp only [mkDate, DateTime.mk.injEq, eq_self_iff_true, true_and] at h
    obtain ⟨hmo, hda, hho, hmi2, hse2⟩ := h
    subst hmo; subst hda; subst hho; subst hmi2; subst hse2
    have hnlt : ¬ toSec (mkDate Y 2 27) <
        toSec (⟨Y, 2, 27, 0, 0, 0⟩ : DateTime) := lt_irrefl _
    rw [tminus]
    rw [show target_date ⟨Y, 2, 27, 0, 0, 0⟩ = mkDate Y 2 27 by
      simp only [target_date]
      rw [if_neg hnlt]]
    simp [dateOf, mkDate]
  refine ⟨⟨hfwd, hbwd⟩, ?_⟩
  intro hne
  have hdate : dateOf ⟨Y, MO, DA, HO, MI, SE⟩ ≠
      dateOf (target_date ⟨Y, MO, DA, HO, MI, SE⟩) := by
    intro hd
    exact hne (hfwd (by rw [tminus, if_pos hd]))
  rw [tminus, if_neg hdate, formatDelta, if_neg (not_lt.mpr hnn)]
  refine ⟨Nat.repr (decompose (totalSecondsOf ⟨Y, MO, DA, HO, MI, SE⟩).toNat).1
      ++ "D " ++
    Nat.repr (decompose (totalSecondsOf ⟨Y, MO, DA, HO, MI, SE⟩).toNat).2.1
      ++ "H " ++
    Nat.repr (decompose (totalSecondsOf ⟨Y, MO, DA, HO, MI, SE⟩).toNat).2.2.1
      ++ "M " ++
    Nat.repr (decompose (totalSecondsOf ⟨Y, MO, DA, HO, MI, SE⟩).toNat).2.2.2
      ++ "S", ?_⟩
  simp [String.append_assoc]

theorem c9_tzero_iff_feb27_midnight_witness :
    (tminus ⟨2025, 3, 1, 0, 0, 0⟩ = "T-ZERO" ↔
      (⟨2025, 3, 1, 0, 0, 0⟩ : DateTime) = mkDate 2025 2 27) ∧
    ((⟨2025, 3, 1, 0, 0, 0⟩ : DateTime) ≠ mkDate 2025 2 27 →
      ∃ r : String, tminus ⟨2025, 3, 1, 0, 0, 0⟩ = "T-MINUS " ++ r) :=
  c9_tzero_iff_feb27_midnight ⟨2025, 3, 1, 0, 0, 0⟩ (by decide)

/-- C10. For every valid whole-second `now`, the script never prints the
line `T-MINUS 0D 0H 0M 0S`: whenever a T-MINUS line is printed the
whole-second delta is at least 1 (even though the spec's output interface
lists that line). -/
theorem c10_no_zero_line (now : DateTime) (hv : Valid now) :
    tminus now ≠ "T-MINUS 0D 0H 0M 0S" ∧
    (dateOf now ≠ dateOf (target_date now) → 1 ≤ totalSecondsOf now) := by
  have hpos : dateOf now ≠ dateOf (target_date now) →
      1 ≤ totalSecondsOf now := by
    intro hne
    have := toSec_lt_target now hv hne
    simp only [totalSecondsOf]
    omega
  refine ⟨?_, hpos⟩
  rw [tminus]
  split
  · decide
  · next hne =>
    have h1 := hpos hne
    rw [formatDelta, if_neg (by omega)]
    intro hcontra
    obtain ⟨ha, hb, hc, hd⟩ := format_zero_inj _ _ _ _ hcontra
    have hsum := (decompose_spec (totalSecondsOf now).toNat).1
    rw [ha, hb, hc, hd] at hsum
    omega

theorem c10_no_zero_line_witness :
    tminus ⟨2025, 3, 1, 0, 0, 0⟩ ≠ "T-MINUS 0D 0H 0M 0S" ∧
    (dateOf ⟨2025, 3, 1, 0, 0, 0⟩ ≠
        dateOf (target_date ⟨2025, 3, 1, 0, 0, 0⟩) →
      1 ≤ totalSecondsOf ⟨2025, 3, 1, 0, 0, 0⟩) :=
  c10_no_zero_line ⟨2025, 3, 1, 0, 0, 0⟩ (by decide)

end TMinus
